import Mathlib

/-!
Verification of the Expertbase-Builder pipeline (expertbase.py, expert.py,
orcid_aggregator.py) against its natural-language specification.

The Python code is shallowly embedded: JSON payloads become structures with
`Option` fields (`none` models a JSON `null` / missing key where the code
distinguishes them), Python dictionaries become insertion-ordered association
lists, and code that can raise an exception returns `Except Unit α`
(`.error ()` models an uncaught Python exception; the post-raise object state
is not observed by any claim, so it is not carried by the error).
Network effects are modelled by oracles: a function from the request's
arguments to the outcome of the HTTP exchange.
-/

/-! ## Dates (Python `datetime.date`) -/

/-- A calendar date as produced by `datetime.date(year, month, day)`. -/
structure PyDate where
  year : Nat
  month : Nat
  day : Nat
deriving DecidableEq, Repr

def isLeapYear (y : Nat) : Bool :=
  (y % 4 == 0 && y % 100 != 0) || y % 400 == 0

def daysInMonth (y m : Nat) : Nat :=
  if m == 2 then (if isLeapYear y then 29 else 28)
  else if m == 4 || m == 6 || m == 9 || m == 11 then 30
  else 31

/-- The argument validation performed by the `datetime.date` constructor
(`MINYEAR = 1`, `MAXYEAR = 9999`, month and day in range). -/
def validDate (y m d : Nat) : Bool :=
  1 ≤ y && y ≤ 9999 && 1 ≤ m && m ≤ 12 && 1 ≤ d && d ≤ daysInMonth y m

/-- `datetime.date(y, m, d)`: raises `ValueError` on out-of-range components. -/
def mkDate (y m d : Nat) : Except Unit PyDate :=
  if validDate y m d then .ok ⟨y, m, d⟩ else .error ()

/-- Python date comparison `a < b` (lexicographic on year, month, day). -/
def dateLtB (a b : PyDate) : Bool :=
  a.year < b.year ||
    (a.year == b.year &&
      (a.month < b.month || (a.month == b.month && a.day < b.day)))

/-! ## ORCID payloads (orcid_aggregator.py) -/

/-- The `end-date` object of an employment summary.  Each component is the
integer content of the nested `{"value": ...}` object; `none` models a missing
key or a JSON `null` at any level of the chain (the code collapses those cases
for month and day via `(end.get(...) or {}).get('value', 1)`). -/
structure EndDate where
  year : Option Nat
  month : Option Nat
  day : Option Nat
deriving DecidableEq, Repr

/-- One `employment-summary` object.  String fields are read in the source
with `.get(..., "")` / `.get("organization", {}).get("name", "")`, so a single
`Option` layer with default `""` is faithful. -/
structure EmpSummary where
  role_title : Option String
  department_name : Option String
  organization_name : Option String
  end_date : Option EndDate
deriving DecidableEq, Repr

/-- One `affiliation-group` entry: its list of summaries (each summary's
`employment-summary` wrapper object, which the registry always supplies, is
folded away). -/
structure AffiliationGroup where
  summaries : List EmpSummary
deriving DecidableEq, Repr

/-- The `/activities` payload: `employments.affiliation-group`. -/
structure ActivitiesData where
  affiliation_groups : List AffiliationGroup
deriving DecidableEq, Repr

def summaryTriple (s : EmpSummary) : String × String × String :=
  (s.role_title.getD "", s.department_name.getD "", s.organization_name.getD "")

/-- The per-summary body of the loop in `extract_current_employments`
(orcid_aggregator.py lines 100-134): `some t` means the triple `t` is
appended, `none` means the summary is skipped, `.error` an uncaught exception.
`date.today()` is passed in as `today`. -/
def summaryStep (today : PyDate) (s : EmpSummary) :
    Except Unit (Option (String × String × String)) :=
  match s.end_date with
  | none => .ok (some (summaryTriple s))
  | some ed =>
    -- line 111: int(current_summary["end-date"]["year"]['value']) raises
    -- (KeyError/TypeError) when the year object or its value is missing.
    match ed.year with
    | none => .error ()
    | some y =>
      if y < today.year then .ok none
      else
        -- line 115's `if current_summary is None` is unreachable
        -- (current_summary is a dict) and has no effect.
        let year_val := ed.year
        let month_val := ed.month
        let day_val := ed.day
        let year := year_val.getD 2050
        let month := month_val.getD 1
        let day := day_val.getD 1
        match mkDate year month day with
        | .error _ => .error ()
        | .ok given_date =>
          if dateLtB today given_date then .ok (some (summaryTriple s))
          else .ok none

/-- The group loop of `extract_current_employments`: a group with an empty
`summaries` list raises `IndexError` at `summaries[0]`. -/
def empsGo (today : PyDate) : List AffiliationGroup →
    Except Unit (List (String × String × String))
  | [] => .ok []
  | g :: gs =>
    match g.summaries with
    | [] => .error ()
    | s :: _ =>
      match summaryStep today s with
      | .error _ => .error ()
      | .ok none => empsGo today gs
      | .ok (some t) =>
        match empsGo today gs with
        | .error _ => .error ()
        | .ok rest => .ok (t :: rest)

/-- `extract_current_employments` (orcid_aggregator.py lines 85-136), with
`date.today()` injected as `today`. -/
def extract_current_employments (today : PyDate) (d : ActivitiesData) :
    Except Unit (List (String × String × String)) :=
  empsGo today d.affiliation_groups

/-! Spec-side rendering of the claimed decision policy (C1), written from the
spec's words: include when the end-date is absent; exclude when the end-date's
year is strictly below today's year; otherwise include iff the date built from
year (2050 when missing), month (1 when missing) and day (1 when missing) is
strictly after today. -/

def specIncludeSummary (today : PyDate) (s : EmpSummary) : Bool :=
  match s.end_date with
  | none => true
  | some ed =>
    match ed.year with
    | some y =>
      if y < today.year then false
      else dateLtB today ⟨y, ed.month.getD 1, ed.day.getD 1⟩
    | none => dateLtB today ⟨2050, ed.month.getD 1, ed.day.getD 1⟩

def specExtractEmployments (today : PyDate) (d : ActivitiesData) :
    List (String × String × String) :=
  d.affiliation_groups.filterMap fun g =>
    match g.summaries with
    | [] => none
    | s :: _ => if specIncludeSummary today s then some (summaryTriple s) else none

/-! ## Python string primitives

Core `String` functions such as `toLower`, `trim` or `splitOn` iterate over
byte positions and do not reduce well inside the kernel, so the handful of
Python string operations the code uses are given their own character-list
implementations (ASCII-level case mapping and whitespace, which covers all
strings these claims quantify over or evaluate). -/

/-- Python `str.lower()`. -/
def pyLower (s : String) : String :=
  String.mk (s.toList.map Char.toLower)

/-- Python `str.strip()`: remove leading and trailing whitespace. -/
def pyStrip (s : String) : String :=
  String.mk (((s.toList.dropWhile Char.isWhitespace).reverse.dropWhile
    Char.isWhitespace).reverse)

/-- Python `"," in s`. -/
def pyHasComma (s : String) : Bool :=
  s.toList.contains ','

/-- Python `s.split(",")`. -/
def pySplitCommaGo : List Char → List Char → List String
  | [], acc => [String.mk acc.reverse]
  | c :: cs, acc =>
    if c == ',' then String.mk acc.reverse :: pySplitCommaGo cs []
    else pySplitCommaGo cs (c :: acc)

def pySplitComma (s : String) : List String :=
  pySplitCommaGo s.toList []

/-- Python `s.replace(c, "")` for a one-character pattern. -/
def removeAll (c : Char) (s : String) : String :=
  String.mk (s.toList.filter (fun x => x != c))

/-- Python `sep.join(l)`. -/
def pyJoin (sep : String) : List String → String
  | [] => ""
  | s :: rest => rest.foldl (fun acc x => acc ++ sep ++ x) s

/-! ## Python dictionaries as insertion-ordered association lists -/

/-- Python `d[k] = v`: replace the value at `k` in place (keeping its
insertion-order position) or append a fresh binding at the end. -/
def dictSet {α : Type} : List (String × α) → String → α → List (String × α)
  | [], k, v => [(k, v)]
  | (k', v') :: rest, k, v =>
    if k' == k then (k, v) :: rest else (k', v') :: dictSet rest k v

theorem lookup_dictSet_self {α : Type} (d : List (String × α)) (k : String) (v : α) :
    (dictSet d k v).lookup k = some v := by
  induction d with
  | nil => simp [dictSet, List.lookup]
  | cons p rest ih =>
    obtain ⟨k', v'⟩ := p
    by_cases h : k' = k
    · subst h; simp [dictSet, List.lookup]
    · simp only [dictSet, beq_iff_eq, h, if_false, List.lookup]
      have h2 : (k == k') = false := by
        simp [beq_iff_eq]; exact fun e => h e.symm
      simp [h2, ih]

theorem lookup_dictSet_ne {α : Type} (d : List (String × α)) (k k' : String) (v : α)
    (h : k' ≠ k) : (dictSet d k v).lookup k' = d.lookup k' := by
  induction d with
  | nil =>
    have h2 : (k' == k) = false := by simp [beq_iff_eq, h]
    simp [dictSet, List.lookup, h2]
  | cons p rest ih =>
    obtain ⟨k0, v0⟩ := p
    by_cases h0 : k0 = k
    · subst h0
      simp only [dictSet, beq_self_eq_true, if_true, List.lookup]
      have h2 : (k' == k0) = false := by simp [beq_iff_eq, h]
      simp [h2]
    · simp only [dictSet, beq_iff_eq, h0, if_false, List.lookup]
      by_cases h1 : k' = k0
      · subst h1; simp
      · have h2 : (k' == k0) = false := by simp [beq_iff_eq, h1]
        simp [h2, ih]

/-- A value stored in an expert's `properties` dictionary: a string, a list of
strings, or the employment list (a list of `[role, department, organization]`
triples). -/
inductive PropVal where
  | s (v : String)
  | strs (v : List String)
  | emps (v : List (String × String × String))
deriving DecidableEq, Repr

/-- An expert's `properties` dictionary (`Expert.properties`), and also one
entry of the raw persisted mirror `ExpertBase.raw_base`. -/
abbrev Props := List (String × PropVal)

/-- The mutable state of an `ExpertBase` object: `base` maps each ORCID to the
live expert's `properties` dictionary, `raw_base` to the persisted mirror. -/
structure BaseState where
  base : List (String × Props)
  raw : List (String × Props)
deriving DecidableEq, Repr

/-! ## Registry client (orcid_aggregator.py) -/

/-- Outcome of one registry HTTP exchange, as observed by
`fetch_orcid_data`: the GET call raises a `requests` exception
(`connError`), or a response arrives with a non-200 status (`non200`), or a
200 response arrives whose body fails to decode (`badJson`) or decodes to a
payload `a` (`ok a`). -/
inductive FetchRes (α : Type) where
  | connError
  | non200
  | badJson
  | ok (a : α)

/-- `fetch_orcid_data` (orcid_aggregator.py lines 34-52) applied to the
outcome of its single request.  There is no try/except in the source: the
exception of a failed GET and the decode error of `response.json()` on a 200
response both propagate to the caller (`.error ()`); only a non-200 status
is turned into the `None` sentinel. -/
def fetch_orcid_data {α : Type} : FetchRes α → Except Unit (Option α)
  | .connError => .error ()
  | .non200 => .ok none
  | .badJson => .error ()
  | .ok a => .ok (some a)

/-- The `name` object of the `/person` payload: the `value` fields of
`given-names` / `family-name`, read with `.get(..., {}).get("value", "")`. -/
structure NameObj where
  given_names : Option String
  family_name : Option String
deriving DecidableEq, Repr

/-- The `/person` payload.  `emails` holds each entry's `email` field
(`.get("email", "")` guarded).  `keywords = none` models a payload in which
`orcid_data["keywords"]` or `["keyword"]` is missing or null (the code indexes
them unguarded); an element `none` models an entry without `content`. -/
structure PersonData where
  name : NameObj
  emails : List (Option String)
  keywords : Option (List (Option String))
deriving DecidableEq, Repr

/-- `extract_names` (orcid_aggregator.py lines 54-70), returning the
(given-names, family-name) pair of the result dictionary. -/
def extract_names (d : PersonData) : String × String :=
  (d.name.given_names.getD "", d.name.family_name.getD "")

/-- `extract_mail` (orcid_aggregator.py lines 72-83). -/
def extract_mail (d : PersonData) : String :=
  match d.emails with
  | [] => ""
  | e :: _ => e.getD ""

/-- `extract_keywords` (orcid_aggregator.py lines 138-151):
`orcid_data["keywords"]["keyword"]` and `k["content"]` are unguarded index
accesses, so a missing key raises. -/
def extract_keywords (d : PersonData) : Except Unit (List String) :=
  match d.keywords with
  | none => .error ()
  | some ks => ks.mapM fun k =>
      match k with
      | none => .error ()
      | some c => .ok c

/-! ## CSV helpers (expertbase.py / orcid_aggregator.py) -/

/-- `read_orcids_from_csv` (orcid_aggregator.py lines 11-32) on the parsed CSV
rows.  `next(reader)` on an empty file raises `StopIteration` (only `IOError`
is caught), and `row[1]` raises `IndexError` on a short row. -/
def read_orcids_from_csv : List (List String) → Except Unit (List String)
  | [] => .error ()
  | _ :: dataRows =>
    dataRows.mapM fun row =>
      match row.get? 1 with
      | none => .error ()
      | some o => .ok (pyStrip o)

/-- `dict(zip(orcids, tadirah))`: `zip` truncates to the shorter list, and
building the dict lets a later duplicate key overwrite an earlier one. -/
def dictFromZip (orcids : List String) (tadirah : List (List String)) :
    List (String × List String) :=
  (orcids.zip tadirah).foldl (fun acc p => dictSet acc p.1 p.2) []

/-- The per-row body of the loop in `create_tadirah_map`: `row[1].strip()`
(unguarded), then `row[2]` (unguarded); a tag list is produced only when
`row[2]` contains a comma. -/
def tadirahRow (row : List String) : Except Unit (String × Option (List String)) := do
  let o ← match row.get? 1 with
    | none => .error ()
    | some s => pure (pyStrip s)
  let c ← match row.get? 2 with
    | none => .error ()
    | some s => pure s
  pure (o, if pyHasComma c then some ((pySplitComma c).map pyStrip) else none)

/-- `create_tadirah_map` (expertbase.py lines 12-35): every data row's
`row[1]` is collected, but a tag list is appended only when `row[2]` contains
a comma; the two lists are then zipped positionally. -/
def create_tadirah_map : List (List String) → Except Unit (List (String × List String))
  | [] => .error ()
  | _ :: dataRows => do
    let pairs ← dataRows.mapM tadirahRow
    let orcids := pairs.map Prod.fst
    let tadirah := pairs.filterMap Prod.snd
    pure (dictFromZip orcids tadirah)

/-! ## ExpertBase.populate_from_csv (expertbase.py lines 65-109) -/

/-- The per-identifier loop of `populate_from_csv`.  The network is the pair
of oracles `netp` / `neta` giving the outcome of the `/person` and
`/activities` fetches of each ORCID.  A `None` from either fetch logs and
`continue`s; the extraction helpers and the unguarded `tadirah_map[orcid]`
lookup can raise, which aborts the whole run.  On success both `base` and
`raw_base` receive the new expert's properties (`get_properties` returns a
copy, which at the value level is the same dictionary). -/
def populateLoop (netp : String → FetchRes PersonData)
    (neta : String → FetchRes ActivitiesData)
    (tmap : List (String × List String)) (today : PyDate) :
    List String → BaseState → Except Unit BaseState
  | [], st => .ok st
  | orcid :: rest, st => do
    let person? ← fetch_orcid_data (netp orcid)
    let activities? ← fetch_orcid_data (neta orcid)
    match person?, activities? with
    | some p, some a => do
      let extracted_name := extract_names p
      let extracted_keywords ← extract_keywords p
      let extracted_employment ← extract_current_employments today a
      let extracted_mail := extract_mail p
      match tmap.lookup orcid with
      | none => .error ()   -- tadirah_map[orcid] raises KeyError
      | some tags =>
        let props : Props :=
          [("Vorname", .s extracted_name.1),
           ("Nachname", .s extracted_name.2),
           ("Derzeitige Beschäftigung", .emps extracted_employment),
           ("Forschungsinteressen", .strs extracted_keywords),
           ("E-Mail", .s extracted_mail),
           ("TaDiRAH-Zuordnung", .strs tags)]
        populateLoop netp neta tmap today rest
          ⟨dictSet st.base orcid props, dictSet st.raw orcid props⟩
    | _, _ => populateLoop netp neta tmap today rest st

/-- `ExpertBase.populate_from_csv` on the parsed CSV rows, starting from the
fresh state built by the constructor. -/
def populate_from_csv (rows : List (List String))
    (netp : String → FetchRes PersonData)
    (neta : String → FetchRes ActivitiesData)
    (today : PyDate) : Except Unit BaseState := do
  let orcids ← read_orcids_from_csv rows
  let tmap ← create_tadirah_map rows
  populateLoop netp neta tmap today orcids ⟨[], []⟩

/-! ## Serialization (expertbase.py lines 129-173) -/

/-- `ExpertBase.serialize_expertbase` writes `raw_base` as JSON.  A JSON
object of strings and string lists round-trips losslessly through
`json.dump` / `json.load` (UTF-8, `ensure_ascii=False`), so the persisted
file is modelled by the `raw_base` value itself. -/
def serialize_expertbase (st : BaseState) : List (String × Props) :=
  st.raw

/-- The per-expert reconstruction performed by `deserialize_expertbase`
(expertbase.py lines 140-151): each of the five fields is read with
`.get(key, default)`; `TaDiRAH-Zuordnung` and any other stored field are not
carried over to the rebuilt expert. -/
def deserializeRecord (d : Props) : Props :=
  [("Vorname", (d.lookup "Vorname").getD (.s "")),
   ("Nachname", (d.lookup "Nachname").getD (.s "")),
   ("Derzeitige Beschäftigung", (d.lookup "Derzeitige Beschäftigung").getD (.emps [])),
   ("Forschungsinteressen", (d.lookup "Forschungsinteressen").getD (.strs [])),
   ("E-Mail", (d.lookup "E-Mail").getD (.s ""))]

/-- `ExpertBase.deserialize_expertbase` on a parsed store: `raw_base` becomes
the loaded mapping, and `base` is rebuilt expert by expert. -/
def deserialize_expertbase (store : List (String × Props)) : BaseState :=
  ⟨store.map (fun p => (p.1, deserializeRecord p.2)), store⟩

/-! ## ExpertBase.add_properties_from_csv (expertbase.py lines 219-266) -/

/-- `row[0].lstrip('﻿').strip()`. -/
def cleanId (s : String) : String :=
  pyStrip (String.mk (s.toList.dropWhile (fun c => c == '\uFEFF')))

/-- The inner cell loop `for i, property in enumerate(properties[1:], 1)`:
`row[i]` is an unguarded index access; an empty cell is skipped; otherwise the
field is set on the live expert's dictionary (`extend_properties`) and on the
raw mirror entry. -/
def applyCells : Props → Props → List String → List String → Nat →
    Except Unit (Props × Props)
  | bp, rp, [], _, _ => .ok (bp, rp)
  | bp, rp, p :: ps, row, i =>
    match row.get? i with
    | none => .error ()
    | some cell =>
      if cell = "" then applyCells bp rp ps row (i + 1)
      else applyCells (dictSet bp p (.s cell)) (dictSet rp p (.s cell)) ps row (i + 1)

/-- One data row of the override merge: the BOM/whitespace-stripped
identifier is looked up in the `orcids` snapshot; unknown identifiers only
log a warning.  `row[0]` on an empty row raises, and a known identifier
missing from `raw_base` raises `KeyError` at the mirror update. -/
def applyRow (orcids : List String) (st : BaseState) (row : List String)
    (properties : List String) : Except Unit BaseState :=
  match row with
  | [] => .error ()
  | r0 :: _ =>
    let current_orcid := cleanId r0
    if orcids.contains current_orcid then
      match st.base.lookup current_orcid, st.raw.lookup current_orcid with
      | some bp, some rp => do
        let (bp', rp') ← applyCells bp rp (properties.drop 1) row 1
        .ok ⟨dictSet st.base current_orcid bp', dictSet st.raw current_orcid rp'⟩
      | _, _ => .error ()
    else .ok st

/-- `ExpertBase.add_properties_from_csv` on the parsed CSV rows.  An empty
file raises `StopIteration` at `next(reader)`; a header with fewer than two
columns, or whose first cell is not `"orcid"` case-insensitively, returns
after a warning without touching any record. -/
def add_properties_from_csv (st : BaseState) : List (List String) →
    Except Unit BaseState
  | [] => .error ()
  | properties :: dataRows =>
    if properties.length < 2 then .ok st
    else if ¬(pyLower (properties.headD "") == "orcid") then .ok st
    else
      let orcids := st.base.map Prod.fst
      dataRows.foldlM (fun s row => applyRow orcids s row properties) st

/-! ## search_wikidata_id (expert.py lines 11-73) -/

/-- What one attempt of the Wikidata search loop observes: a 429 status; any
other `requests` failure (connection error, timeout, or the `HTTPError`
raised by `raise_for_status` on a non-2xx status) — all caught by the
`RequestException` handler; a body that fails `response.json()` — caught by
the `JSONDecodeError` handler; or a decoded body whose `search` list holds
the ids of the hits (missing/empty is the falsy case). -/
inductive WOutcome where
  | rate429
  | requestError
  | decodeError
  | results (ids : List String)

/-- The `while retries <= max_retries` loop of `search_wikidata_id`,
structurally recursing on `max_retries + 1 - retries`.  `attempts n` is the
outcome of the `n`-th request.  The second component of the result records
the argument of each `time.sleep` call in order. -/
def searchGo (attempts : Nat → WOutcome) (search_string : String) :
    Nat → Nat → Nat → String × List Nat
  | 0, _, _ => (search_string, [])
  | remaining + 1, i, backoff =>
    match attempts i with
    | .rate429 =>
      let r := searchGo attempts search_string remaining (i + 1) (min (backoff * 2) 60)
      (r.1, backoff :: r.2)
    | .requestError => (search_string, [])
    | .decodeError => (search_string, [])
    | .results ids =>
      match ids with
      | [] => (search_string, [])
      | id0 :: _ => (id0, [])

/-- `search_wikidata_id` (expert.py lines 11-73): result string and the log
of sleep durations.  It catches every exception its body can raise, so it is
a total function of the attempt outcomes. -/
def search_wikidata_id (attempts : Nat → WOutcome) (search_string : String)
    (max_retries : Nat := 5) : String × List Nat :=
  searchGo attempts search_string (max_retries + 1) 0 1

/-- The backoff sequence of the claim: 1 second, doubled per retry, capped at
60 seconds. -/
def backoffSeq : Nat → Nat
  | 0 => 1
  | n + 1 => min (backoffSeq n * 2) 60

/-! ## Expert.get_organisation (expert.py lines 177-197) -/

/-- `Expert.get_organisation` with the Wikidata lookup abstracted as
`resolve`: first the distinct organization names of the current employments
in first-seen order, then one organization name per distinct lookup key,
first-seen wins, returned in key first-seen order. -/
def get_organisation (resolve : String → String)
    (emps : List (String × String × String)) : List String :=
  let organisations := emps.foldl
    (fun acc e => if acc.contains e.2.2 then acc else acc ++ [e.2.2]) []
  let qids := organisations.foldl
    (fun acc org =>
      let qid := resolve org
      if (acc.map Prod.fst).contains qid then acc else acc ++ [(qid, org)]) []
  qids.map Prod.snd

/-- Spec-side first-seen deduplication of a string list. -/
def specDistinct : List String → List String
  | [] => []
  | o :: os => o :: specDistinct (os.filter (fun x => x != o))
termination_by l => l.length
decreasing_by
  simp only [List.length_cons]
  exact Nat.lt_succ_of_le (List.length_filter_le _ _)

/-- Spec-side policy: keep only the first name seen for each distinct lookup
key, in key first-seen order. -/
def specDedupByKey (resolve : String → String) : List String → List String
  | [] => []
  | o :: os => o :: specDedupByKey resolve (os.filter (fun x => resolve x != resolve o))
termination_by l => l.length
decreasing_by
  simp only [List.length_cons]
  exact Nat.lt_succ_of_le (List.length_filter_le _ _)

/-! ## Expert.get_research_interest (expert.py lines 199-224) -/

/-- Python `str.title()`: an alphabetic character is uppercased when the
previous character is not alphabetic and lowercased otherwise (ASCII-level
case mapping; the source strings of interest are handled identically). -/
def pyTitleGo : Bool → List Char → List Char
  | _, [] => []
  | prevAlpha, c :: cs =>
    if c.isAlpha then
      (if prevAlpha then c.toLower else c.toUpper) :: pyTitleGo true cs
    else c :: pyTitleGo false cs

def pyTitle (s : String) : String :=
  String.mk (pyTitleGo false s.toList)

/-- The special-character removal of the keyword loop:
`keyword.replace("(", "").replace(")", "").replace("#", "")`. -/
def stripSpecials (k : String) : String :=
  removeAll '#' (removeAll ')' (removeAll '(' k))

/-- The body of the special-character loop of `get_research_interest`:
`keyword[0]` raises `IndexError` on an empty keyword; otherwise selected
special characters are removed when the first character is not
alphanumeric. -/
def formatStep (k : String) : Except Unit String :=
  match k.toList with
  | [] => .error ()
  | c :: _ => .ok (if ¬c.isAlphanum then stripSpecials k else k)

/-- `Expert.get_research_interest(formated=True)` on the stored
`Forschungsinteressen` list.  A single entry containing a comma is split and
trimmed first; then each keyword is passed through the special-character
step; finally all keywords are title-cased and joined with semicolons. -/
def get_research_interest_formated (kws : List String) : Except Unit String := do
  let kws :=
    match kws with
    | [k] => if pyHasComma k then (pySplitComma k).map pyStrip else [k]
    | l => l
  let kws ← kws.mapM formatStep
  .ok (pyJoin ";" (kws.map pyTitle))

/-- Spec-side formatting of one keyword, per the claim's words: selected
special characters stripped when the first character is not alphanumeric,
then title-cased. -/
def specFormatKeyword (k : String) : String :=
  pyTitle (match k.toList with
    | [] => k
    | c :: _ => if ¬c.isAlphanum then stripSpecials k else k)

/-- Spec-side split-then-format pipeline for a single comma-holding entry. -/
def specSplitThenFormat (s : String) : String :=
  pyJoin ";" (((pySplitComma s).map pyStrip).map specFormatKeyword)

/-! ## C5 object model: `Expert.get_properties` returns `self.properties.copy()` -/

/-- A Python value held in a properties dictionary, with object identity for
mutable nested values: inline strings and references to heap-allocated list
objects. -/
inductive ObjVal where
  | str (s : String)
  | ref (a : Nat)
deriving DecidableEq, Repr

/-- A properties dictionary at the object level. -/
abbrev ObjDict := List (String × ObjVal)

/-- The heap of one run: dictionary objects and list objects, addressed by
`Nat`.  Only the parts the claim observes are modelled. -/
structure ObjHeap where
  dicts : List (Nat × ObjDict)
  lists : List (Nat × List ObjVal)
deriving DecidableEq, Repr

def dictCell (h : ObjHeap) (a : Nat) : ObjDict :=
  ((h.dicts.find? (fun c => c.1 == a)).map Prod.snd).getD []

def listCell (h : ObjHeap) (a : Nat) : List ObjVal :=
  ((h.lists.find? (fun c => c.1 == a)).map Prod.snd).getD []

def freshDictAddr (h : ObjHeap) : Nat :=
  (h.dicts.map Prod.fst).foldr max 0 + 1

/-- `Expert.get_properties` (expert.py lines 106-110):
`return self.properties.copy()` allocates a new dictionary object holding the
same entries — nested list objects are shared, not copied. -/
def get_properties (h : ObjHeap) (selfProps : Nat) : ObjHeap × Nat :=
  let fresh := freshDictAddr h
  (⟨h.dicts ++ [(fresh, dictCell h selfProps)], h.lists⟩, fresh)

/-- A top-level assignment `d[k] = v` on the dictionary object at `a`. -/
def dictAssign (h : ObjHeap) (a : Nat) (k : String) (v : ObjVal) : ObjHeap :=
  ⟨h.dicts.map (fun c => if c.1 == a then (c.1, dictSet c.2 k v) else c), h.lists⟩

/-- An in-place `list.append(v)` on the list object at `a` (the claim's
nested mutation of the 'Derzeitige Beschäftigung' value). -/
def listAppend (h : ObjHeap) (a : Nat) (v : ObjVal) : ObjHeap :=
  ⟨h.dicts, h.lists.map (fun c => if c.1 == a then (c.1, c.2 ++ [v]) else c)⟩

/-- The live record's view of a list-valued field: the contents of the list
object its properties dictionary holds under `k`. -/
def viewListField (h : ObjHeap) (dictAddr : Nat) (k : String) : List ObjVal :=
  match (dictCell h dictAddr).lookup k with
  | some (.ref a) => listCell h a
  | _ => []

/-! ## C1 -/

/-- Decidable precondition on the first summary of a group: if an end-date is
present, its year value is present, and — unless the past-year test already
excludes the summary — the date the code constructs is a valid
`datetime.date`. -/
def c1SummaryPreB (today : PyDate) (s : EmpSummary) : Bool :=
  match s.end_date with
  | none => true
  | some ed =>
    match ed.year with
    | none => false
    | some y => decide (y < today.year) || validDate y (ed.month.getD 1) (ed.day.getD 1)

def c1GroupPreB (today : PyDate) (g : AffiliationGroup) : Bool :=
  match g.summaries with
  | [] => false
  | s :: _ => c1SummaryPreB today s

theorem summaryStep_spec (today : PyDate) (s : EmpSummary)
    (h : c1SummaryPreB today s = true) :
    summaryStep today s =
      .ok (if specIncludeSummary today s then some (summaryTriple s) else none) := by
  cases hed : s.end_date with
  | none => simp [summaryStep, specIncludeSummary, hed]
  | some ed =>
    cases hy : ed.year with
    | none => simp [c1SummaryPreB, hed, hy] at h
    | some y =>
      by_cases hl : y < today.year
      · simp [summaryStep, specIncludeSummary, hed, hy, hl]
      · have hval : validDate y (ed.month.getD 1) (ed.day.getD 1) = true := by
          simp [c1SummaryPreB, hed, hy, hl] at h
          exact h
        simp only [summaryStep, specIncludeSummary, hed, hy, hl, if_false]
        simp only [Option.getD_some, mkDate, hval, if_true]
        by_cases hd : dateLtB today ⟨y, ed.month.getD 1, ed.day.getD 1⟩ = true
        · simp [hd]
        · simp only [Bool.not_eq_true] at hd
          simp [hd]

theorem empsGo_spec (today : PyDate) (gs : List AffiliationGroup)
    (h : gs.all (c1GroupPreB today) = true) :
    empsGo today gs = .ok (gs.filterMap fun g =>
      match g.summaries with
      | [] => none
      | s :: _ =>
        if specIncludeSummary today s then some (summaryTriple s) else none) := by
  induction gs with
  | nil => rfl
  | cons g rest ih =>
    rw [List.all_cons, Bool.and_eq_true] at h
    obtain ⟨hg, hrest⟩ := h
    cases hs : g.summaries with
    | nil => simp [c1GroupPreB, hs] at hg
    | cons s tl =>
      have hpre : c1SummaryPreB today s = true := by
        simpa [c1GroupPreB, hs] using hg
      simp only [empsGo, hs, summaryStep_spec today s hpre, List.filterMap_cons]
      by_cases hi : specIncludeSummary today s = true
      · simp [hi, ih hrest]
      · simp only [Bool.not_eq_true] at hi
        simp [hi, ih hrest]

/-- C1 (amended): for every activities payload in which each affiliation
group has at least one summary, each first summary's present end-date carries
a year value, and each date the code constructs is a valid calendar date,
`extract_current_employments` considers only the first summary per group and
returns, in original group order, exactly the triples selected by the claimed
policy: include when the end-date is absent; exclude when its year is
strictly below today's year; otherwise include iff the date built from
year/month(1)/day(1) is strictly after today.  (The claim's 2050-sentinel
case cannot occur: a missing year value raises before the fallback is
reached, see `c1_counterexample`.) -/
theorem c1_extract_current_employments_policy (today : PyDate) (d : ActivitiesData)
    (h : d.affiliation_groups.all (c1GroupPreB today) = true) :
    extract_current_employments today d = .ok (specExtractEmployments today d) := by
  unfold extract_current_employments specExtractEmployments
  exact empsGo_spec today d.affiliation_groups h

/-- C1 witness: today = 2024-06-15 and a single employment whose end-date has
year 2024 and missing month/day — the constructed date 2024-01-01 is not
after today, so the summary is excluded, exactly the claim's example. -/
theorem c1_witness :
    (ActivitiesData.mk [⟨[⟨some "r", some "dep", some "org",
        some ⟨some 2024, none, none⟩⟩]⟩]).affiliation_groups.all
      (c1GroupPreB ⟨2024, 6, 15⟩) = true ∧
    extract_current_employments ⟨2024, 6, 15⟩
      (ActivitiesData.mk [⟨[⟨some "r", some "dep", some "org",
        some ⟨some 2024, none, none⟩⟩]⟩]) =
      .ok (specExtractEmployments ⟨2024, 6, 15⟩
        (ActivitiesData.mk [⟨[⟨some "r", some "dep", some "org",
          some ⟨some 2024, none, none⟩⟩]⟩])) ∧
    specExtractEmployments ⟨2024, 6, 15⟩
      (ActivitiesData.mk [⟨[⟨some "r", some "dep", some "org",
        some ⟨some 2024, none, none⟩⟩]⟩]) = [] :=
  ⟨by decide, c1_extract_current_employments_policy ⟨2024, 6, 15⟩ _ (by decide), by decide⟩

/-- C1 counterexample to the claim as stated: a summary whose end-date is
present but whose year value is missing.  The claim predicts inclusion via
the 2050 sentinel (2050-01-01 is after 2024-06-15), but the code raises at
the unguarded `int(current_summary["end-date"]["year"]['value'])` before the
sentinel branch can run. -/
theorem c1_counterexample :
    extract_current_employments ⟨2024, 6, 15⟩
      (ActivitiesData.mk [⟨[⟨some "r", some "dep", some "org",
        some ⟨none, none, none⟩⟩]⟩]) = .error () ∧
    specExtractEmployments ⟨2024, 6, 15⟩
      (ActivitiesData.mk [⟨[⟨some "r", some "dep", some "org",
        some ⟨none, none, none⟩⟩]⟩]) = [("r", "dep", "org")] := by
  constructor
  · rfl
  · rfl

/-! ## C2 -/

theorem lookup_some_mem_keys {α : Type} (l : List (String × α)) (k : String) (v : α)
    (h : l.lookup k = some v) : k ∈ l.map Prod.fst := by
  induction l with
  | nil => simp [List.lookup] at h
  | cons p rest ih =>
    obtain ⟨k0, v0⟩ := p
    by_cases h0 : k = k0
    · subst h0; simp
    · have h2 : (k == k0) = false := by simp [beq_iff_eq, h0]
      simp only [List.lookup, h2] at h
      simp [ih h]

/-- C2 (amended): a registry fetch that yields a non-200 status returns the
`None` sentinel after logging, and the batch loop of `populate_from_csv`
skips an identifier for which either sub-resource fetch returned the sentinel
and continues with the remaining identifiers.  (A connection error or a
decode error of a 200 response, however, raises out of `fetch_orcid_data`
and aborts the whole run — see `c2_counterexample`.) -/
theorem c2_non200_skip_and_continue :
    (∀ (α : Type), fetch_orcid_data (.non200 : FetchRes α) = .ok none) ∧
    (∀ (netp : String → FetchRes PersonData) (neta : String → FetchRes ActivitiesData)
      (tmap : List (String × List String)) (today : PyDate)
      (o : String) (rest : List String) (st : BaseState)
      (p? : Option PersonData) (a? : Option ActivitiesData),
      fetch_orcid_data (netp o) = .ok p? →
      fetch_orcid_data (neta o) = .ok a? →
      (p? = none ∨ a? = none) →
      populateLoop netp neta tmap today (o :: rest) st =
        populateLoop netp neta tmap today rest st) := by
  constructor
  · intro α; rfl
  · intro netp neta tmap today o rest st p? a? hp ha hskip
    simp only [populateLoop, hp, ha, Bind.bind, Except.bind]
    cases p? with
    | none => cases a? <;> rfl
    | some p =>
      cases a? with
      | none => rfl
      | some a => rcases hskip with h | h <;> simp at h

/-- C2 witness for the skip lemma: an identifier whose person fetch is
non-200 is skipped and the loop moves on. -/
theorem c2_witness :
    populateLoop (fun _ => FetchRes.non200) (fun _ => FetchRes.ok ⟨[]⟩) [] ⟨2024, 6, 15⟩
        ["0000-0001"] ⟨[], []⟩ =
      populateLoop (fun _ => FetchRes.non200) (fun _ => FetchRes.ok ⟨[]⟩) [] ⟨2024, 6, 15⟩
        [] ⟨[], []⟩ :=
  c2_non200_skip_and_continue.2 _ _ [] ⟨2024, 6, 15⟩ "0000-0001" [] ⟨[], []⟩
    none (some ⟨[]⟩) rfl rfl (Or.inl rfl)

/-- C2 counterexample to the claim as stated: one identifier whose person
fetch fails with a connection error.  The claim predicts the `None` sentinel
and a skip, but `requests.get` has no try/except around it in
`fetch_orcid_data`, so the exception propagates and the whole run aborts
instead of producing an empty base. -/
theorem c2_counterexample :
    populate_from_csv [["name", "orcid", "tadirah"], ["Alice", "0000-0001", "a, b"]]
      (fun _ => FetchRes.connError) (fun _ => FetchRes.ok ⟨[]⟩) ⟨2024, 6, 15⟩ =
      .error () := rfl

/-! ## C3 -/

/-- C3: an override CSV whose header row has fewer than 2 columns, or whose
first header cell is not "orcid" case-insensitively, makes
`add_properties_from_csv` return after a warning with zero field mutations:
the resulting state — live expert objects and raw persisted mirror — is
exactly the state before the call. -/
theorem c3_malformed_header_no_mutation (st : BaseState) (header : List String)
    (dataRows : List (List String))
    (h : header.length < 2 ∨ pyLower (header.headD "") ≠ "orcid") :
    add_properties_from_csv st (header :: dataRows) = .ok st := by
  rcases h with h | h
  · simp [add_properties_from_csv, h]
  · by_cases h2 : header.length < 2
    · simp [add_properties_from_csv, h2]
    · cases header with
      | nil => exact absurd (by decide : ([] : List String).length < 2) h2
      | cons a t =>
        have hb : (pyLower a == "orcid") = false := by
          rw [beq_eq_false_iff_ne]
          simpa using h
        simp [add_properties_from_csv, h2, hb]

/-- C3 witness: a header whose first cell is "name" (not "orcid") leaves a
one-expert base untouched. -/
theorem c3_witness :
    add_properties_from_csv
        ⟨[("0000-0001", [("Vorname", PropVal.s "A")])],
         [("0000-0001", [("Vorname", PropVal.s "A")])]⟩
        [["name", "orcid", "Telefon"], ["x", "0000-0001", "123"]] =
      .ok ⟨[("0000-0001", [("Vorname", PropVal.s "A")])],
           [("0000-0001", [("Vorname", PropVal.s "A")])]⟩ :=
  c3_malformed_header_no_mutation _ _ _ (Or.inr (by decide))

/-! ## C4 -/

theorem applyCells_spec (row : List String) :
    ∀ (ps : List String) (bp rp : Props) (i : Nat), ps.Nodup →
      i + ps.length ≤ row.length →
      ∃ bp' rp', applyCells bp rp ps row i = .ok (bp', rp') ∧
        (∀ pc ∈ ps.zip (row.drop i),
          (pc.2 = "" → bp'.lookup pc.1 = bp.lookup pc.1 ∧
            rp'.lookup pc.1 = rp.lookup pc.1) ∧
          (pc.2 ≠ "" → bp'.lookup pc.1 = some (.s pc.2) ∧
            rp'.lookup pc.1 = some (.s pc.2))) ∧
        (∀ q, q ∉ ps → bp'.lookup q = bp.lookup q ∧ rp'.lookup q = rp.lookup q) := by
  intro ps
  induction ps with
  | nil =>
    intro bp rp i _ _
    exact ⟨bp, rp, rfl, by simp, fun q _ => ⟨rfl, rfl⟩⟩
  | cons p ps ih =>
    intro bp rp i hnd hlen
    obtain ⟨hpmem, hnd'⟩ := List.nodup_cons.mp hnd
    have hi : i < row.length := by
      simp only [List.length_cons] at hlen; omega
    have hlen' : (i + 1) + ps.length ≤ row.length := by
      simp only [List.length_cons] at hlen; omega
    have hrowi : row.get? i = some row[i] := by
      simp [List.get?_eq_getElem?, List.getElem?_eq_getElem hi]
    have hdrop : row.drop i = row[i] :: row.drop (i + 1) :=
      List.drop_eq_getElem_cons hi
    by_cases hcell : row[i] = ""
    · obtain ⟨bp', rp', heq, hfields, hother⟩ := ih bp rp (i + 1) hnd' hlen'
      refine ⟨bp', rp', ?_, ?_, ?_⟩
      · simp only [applyCells, hrowi]
        rw [if_pos hcell]
        exact heq
      · intro pc hpc
        rw [hdrop, List.zip_cons_cons] at hpc
        rcases List.mem_cons.mp hpc with hhd | htl
        · subst hhd
          refine ⟨fun _ => hother p hpmem, fun hne => absurd hcell hne⟩
        · exact hfields pc htl
      · intro q hq
        exact hother q (fun h => hq (List.mem_cons_of_mem _ h))
    · obtain ⟨bp', rp', heq, hfields, hother⟩ :=
        ih (dictSet bp p (.s row[i])) (dictSet rp p (.s row[i])) (i + 1) hnd' hlen'
      refine ⟨bp', rp', ?_, ?_, ?_⟩
      · simp only [applyCells, hrowi]
        rw [if_neg hcell]
        exact heq
      · intro pc hpc
        rw [hdrop, List.zip_cons_cons] at hpc
        rcases List.mem_cons.mp hpc with hhd | htl
        · subst hhd
          refine ⟨fun he => absurd he hcell, fun _ => ?_⟩
          have h1 := (hother p hpmem).1
          have h2 := (hother p hpmem).2
          rw [h1, h2, lookup_dictSet_self, lookup_dictSet_self]
          exact ⟨rfl, rfl⟩
        · obtain ⟨a, b⟩ := pc
          have hab := List.of_mem_zip htl
          have hanep : a ≠ p := fun h => hpmem (h ▸ hab.1)
          have hf := hfields (a, b) htl
          refine ⟨fun he => ?_, fun hne => (hf.2 hne)⟩
          have h1 := (hf.1 he).1
          have h2 := (hf.1 he).2
          rw [h1, h2, lookup_dictSet_ne _ _ _ _ hanep, lookup_dictSet_ne _ _ _ _ hanep]
          exact ⟨rfl, rfl⟩
      · intro q hq
        have hqp : q ≠ p := fun h => hq (h ▸ List.mem_cons_self p ps)
        have hqs : q ∉ ps := fun h => hq (List.mem_cons_of_mem _ h)
        have h1 := (hother q hqs).1
        have h2 := (hother q hqs).2
        rw [h1, h2, lookup_dictSet_ne _ _ _ _ hqp, lookup_dictSet_ne _ _ _ _ hqp]
        exact ⟨rfl, rfl⟩

/-- C4: for a well-formed override CSV (valid header, rows at least as long
as the header, distinct field names), the merge is the fold of the per-row
step over the data rows; a row whose cleaned identifier is unknown leaves
the state untouched without raising; and a row with a known identifier
rewrites both the live expert dictionary and the raw mirror entry cell by
cell: each non-empty cell sets/overwrites the header-named field, each empty
cell leaves the field exactly as it was, and fields not named in the header
are untouched. -/
theorem c4_override_row_application (st : BaseState) (header row : List String)
    (dataRows : List (List String))
    (hh2 : 2 ≤ header.length) (hho : pyLower (header.headD "") = "orcid")
    (hrow : header.length ≤ row.length) (hnd : (header.drop 1).Nodup) :
    (add_properties_from_csv st (header :: dataRows) =
        dataRows.foldlM (fun s r => applyRow (st.base.map Prod.fst) s r header) st) ∧
    (cleanId (row.headD "") ∉ st.base.map Prod.fst →
        applyRow (st.base.map Prod.fst) st row header = .ok st) ∧
    (∀ bp rp, st.base.lookup (cleanId (row.headD "")) = some bp →
        st.raw.lookup (cleanId (row.headD "")) = some rp →
        ∃ bp' rp',
          applyRow (st.base.map Prod.fst) st row header =
            .ok ⟨dictSet st.base (cleanId (row.headD "")) bp',
                 dictSet st.raw (cleanId (row.headD "")) rp'⟩ ∧
          (∀ pc ∈ (header.drop 1).zip (row.drop 1),
            (pc.2 = "" → bp'.lookup pc.1 = bp.lookup pc.1 ∧
              rp'.lookup pc.1 = rp.lookup pc.1) ∧
            (pc.2 ≠ "" → bp'.lookup pc.1 = some (.s pc.2) ∧
              rp'.lookup pc.1 = some (.s pc.2))) ∧
          (∀ q, q ∉ header.drop 1 →
            bp'.lookup q = bp.lookup q ∧ rp'.lookup q = rp.lookup q)) := by
  have hrow0 : ∃ r0 rtl, row = r0 :: rtl := by
    cases row with
    | nil =>
      have hcontra : (2 : Nat) ≤ 0 := Nat.le_trans hh2 hrow
      omega
    | cons r0 rtl => exact ⟨r0, rtl, rfl⟩
  obtain ⟨r0, rtl, hreq⟩ := hrow0
  refine ⟨?_, ?_, ?_⟩
  · cases header with
    | nil => simp at hh2
    | cons a t =>
      have hb : (pyLower a == "orcid") = true := by
        simp only [beq_iff_eq]
        simpa using hho
      have h2 : ¬(a :: t).length < 2 := by omega
      simp only [add_properties_from_csv, List.headD]
      rw [if_neg h2, if_neg (by simp [hb])]
  · intro hunk
    have hc : (st.base.map Prod.fst).contains (cleanId (row.headD "")) = false := by
      rw [List.contains_eq_any_beq]
      simp only [List.any_eq_false]
      intro x hx
      simp only [beq_iff_eq]
      exact fun h => hunk (by rw [h]; exact hx)
    subst hreq
    simp only [applyRow, List.headD] at hc ⊢
    rw [hc]
    simp
  · intro bp rp hbp hrp
    have hmem : cleanId (row.headD "") ∈ st.base.map Prod.fst :=
      lookup_some_mem_keys _ _ _ hbp
    have hc : (st.base.map Prod.fst).contains (cleanId (row.headD "")) = true := by
      rw [List.contains_eq_any_beq]
      simp only [List.any_eq_true]
      exact ⟨_, hmem, by simp⟩
    have hlen : 1 + (header.drop 1).length ≤ row.length := by
      rw [List.length_drop]
      omega
    obtain ⟨bp', rp', heq, hfields, hother⟩ :=
      applyCells_spec row (header.drop 1) bp rp 1 hnd hlen
    refine ⟨bp', rp', ?_, hfields, hother⟩
    subst hreq
    simp only [applyRow, List.headD] at hc hbp hrp ⊢
    rw [hc]
    simp only [if_true]
    rw [hbp, hrp]
    simp only [heq, Bind.bind, Except.bind]

/-- C4 witness: a known identifier, one non-empty cell (sets "Telefon" on
both live object and mirror) and one empty cell (leaves "Vorname" as it
was). -/
theorem c4_witness :
    ∃ bp' rp',
      applyRow ([("0000-0001", [("Vorname", PropVal.s "A")])].map Prod.fst)
          ⟨[("0000-0001", [("Vorname", PropVal.s "A")])],
           [("0000-0001", [("Vorname", PropVal.s "A")])]⟩
          ["0000-0001", "123", ""] ["orcid", "Telefon", "Vorname"] =
        .ok ⟨dictSet [("0000-0001", [("Vorname", PropVal.s "A")])] "0000-0001" bp',
             dictSet [("0000-0001", [("Vorname", PropVal.s "A")])] "0000-0001" rp'⟩ ∧
      (∀ pc ∈ (["orcid", "Telefon", "Vorname"].drop 1).zip
          (["0000-0001", "123", ""].drop 1),
        (pc.2 = "" → bp'.lookup pc.1 = [("Vorname", PropVal.s "A")].lookup pc.1 ∧
          rp'.lookup pc.1 = [("Vorname", PropVal.s "A")].lookup pc.1) ∧
        (pc.2 ≠ "" → bp'.lookup pc.1 = some (.s pc.2) ∧
          rp'.lookup pc.1 = some (.s pc.2))) ∧
      (∀ q, q ∉ ["orcid", "Telefon", "Vorname"].drop 1 →
        bp'.lookup q = [("Vorname", PropVal.s "A")].lookup q ∧
        rp'.lookup q = [("Vorname", PropVal.s "A")].lookup q) :=
  (c4_override_row_application
      ⟨[("0000-0001", [("Vorname", PropVal.s "A")])],
       [("0000-0001", [("Vorname", PropVal.s "A")])]⟩
      ["orcid", "Telefon", "Vorname"] ["0000-0001", "123", ""] []
      (by decide) (by decide) (by decide) (by decide)).2.2
    [("Vorname", PropVal.s "A")] [("Vorname", PropVal.s "A")] rfl rfl

/-! ## C5 -/

theorem mem_le_foldr_max (l : List Nat) (x : Nat) (h : x ∈ l) :
    x ≤ l.foldr max 0 := by
  induction l with
  | nil => simp at h
  | cons a t ih =>
    rcases List.mem_cons.mp h with rfl | h
    · exact Nat.le_max_left _ _
    · exact Nat.le_trans (ih h) (Nat.le_max_right _ _)

theorem find?_freshDictAddr_none (h : ObjHeap) :
    h.dicts.find? (fun c => c.1 == freshDictAddr h) = none := by
  rw [List.find?_eq_none]
  intro c hc
  have hle : c.1 ≤ (h.dicts.map Prod.fst).foldr max 0 :=
    mem_le_foldr_max _ _ (List.mem_map_of_mem Prod.fst hc)
  simp only [beq_iff_eq, freshDictAddr]
  omega

theorem dictCell_get_properties_fresh (h : ObjHeap) (selfProps : Nat) :
    dictCell (get_properties h selfProps).1 (get_properties h selfProps).2 =
      dictCell h selfProps := by
  simp only [get_properties, dictCell, List.find?_append, find?_freshDictAddr_none,
    Option.none_or, List.find?]
  simp

theorem dictAssign_find?_ne (l : List (Nat × ObjDict)) (a b : Nat) (k : String)
    (v : ObjVal) (hne : b ≠ a) :
    (l.map (fun c => if c.1 == a then (c.1, dictSet c.2 k v) else c)).find?
        (fun c => c.1 == b) =
      l.find? (fun c => c.1 == b) := by
  induction l with
  | nil => rfl
  | cons c0 tl ih =>
    rw [List.map_cons]
    by_cases ha : c0.1 = a
    · have hb : ¬(c0.1 = b) := fun e => hne (e.symm.trans ha)
      have hhead : (if c0.1 == a then (c0.1, dictSet c0.2 k v) else c0) =
          (c0.1, dictSet c0.2 k v) := by
        rw [if_pos]; simpa using ha
      rw [hhead, List.find?_cons_of_neg _ (by simpa using hb),
        List.find?_cons_of_neg _ (by simpa using hb)]
      exact ih
    · have hhead : (if c0.1 == a then (c0.1, dictSet c0.2 k v) else c0) = c0 := by
        rw [if_neg]; simpa using ha
      rw [hhead]
      by_cases hb : c0.1 = b
      · rw [List.find?_cons_of_pos _ (by simpa using hb),
          List.find?_cons_of_pos _ (by simpa using hb)]
      · rw [List.find?_cons_of_neg _ (by simpa using hb),
          List.find?_cons_of_neg _ (by simpa using hb)]
        exact ih

theorem listAppendGo_find? (l : List (Nat × List ObjVal)) (a : Nat) (v : ObjVal)
    (hmem : a ∈ l.map Prod.fst) :
    ((Option.map Prod.snd ((l.map (fun c => if c.1 == a then (c.1, c.2 ++ [v])
        else c)).find? (fun c => c.1 == a))).getD []) =
      ((Option.map Prod.snd (l.find? (fun c => c.1 == a))).getD []) ++ [v] := by
  induction l with
  | nil => simp at hmem
  | cons c0 tl ih =>
    rw [List.map_cons]
    by_cases ha : c0.1 = a
    · have hhead : (if c0.1 == a then (c0.1, c0.2 ++ [v]) else c0) =
          (c0.1, c0.2 ++ [v]) := by
        rw [if_pos]; simpa using ha
      rw [hhead, List.find?_cons_of_pos _ (by simpa using ha),
        List.find?_cons_of_pos _ (by simpa using ha)]
      simp
    · have hhead : (if c0.1 == a then (c0.1, c0.2 ++ [v]) else c0) = c0 := by
        rw [if_neg]; simpa using ha
      have hmem' : a ∈ tl.map Prod.fst := by
        rw [List.map_cons, List.mem_cons] at hmem
        rcases hmem with he | hm
        · exact absurd he.symm ha
        · exact hm
      rw [hhead, List.find?_cons_of_neg _ (by simpa using ha),
        List.find?_cons_of_neg _ (by simpa using ha)]
      exact ih hmem'

theorem listCell_listAppend_self (h : ObjHeap) (a : Nat) (v : ObjVal)
    (hmem : a ∈ h.lists.map Prod.fst) :
    listCell (listAppend h a v) a = listCell h a ++ [v] := by
  unfold listCell listAppend
  exact listAppendGo_find? h.lists a v hmem

/-- C5 (amended): `get_properties` returns a shallow copy.  The returned
dictionary is a fresh object with the same entries, so a top-level
assignment through it leaves the live record's backing dictionary exactly as
it was; but nested mutable values — in particular the
'Derzeitige Beschäftigung' list — are shared by reference, so an in-place
mutation of such a nested value through the returned copy is visible in the
live record. -/
theorem c5_get_properties_shallow_copy (h : ObjHeap) (selfProps : Nat)
    (hmem : selfProps ∈ h.dicts.map Prod.fst) :
    (get_properties h selfProps).2 ≠ selfProps ∧
    dictCell (get_properties h selfProps).1 (get_properties h selfProps).2 =
      dictCell h selfProps ∧
    (∀ k v, dictCell (dictAssign (get_properties h selfProps).1
        (get_properties h selfProps).2 k v) selfProps = dictCell h selfProps) ∧
    (∀ k a v, (dictCell h selfProps).lookup k = some (.ref a) →
      a ∈ h.lists.map Prod.fst →
      viewListField (listAppend (get_properties h selfProps).1 a v) selfProps k =
        listCell h a ++ [v]) := by
  have hfresh : selfProps < freshDictAddr h := by
    have := mem_le_foldr_max _ _ hmem
    simp only [freshDictAddr]
    omega
  have hne : (get_properties h selfProps).2 ≠ selfProps := by
    simp only [get_properties]
    omega
  have hfind : (List.find? (fun c => c.1 == selfProps)
      [(freshDictAddr h, dictCell h selfProps)]) =
      (none : Option (Nat × ObjDict)) := by
    rw [List.find?_eq_none]
    intro x hx
    simp only [List.mem_singleton] at hx
    subst hx
    simp only [beq_iff_eq]
    omega
  have hdicts_eq : (get_properties h selfProps).1.dicts =
      h.dicts ++ [(freshDictAddr h, dictCell h selfProps)] := rfl
  have hcell : dictCell (get_properties h selfProps).1 selfProps =
      dictCell h selfProps := by
    unfold dictCell
    rw [hdicts_eq, List.find?_append, hfind, Option.or_none]
  refine ⟨hne, dictCell_get_properties_fresh h selfProps, ?_, ?_⟩
  · intro k v
    have : dictCell (dictAssign (get_properties h selfProps).1
        (get_properties h selfProps).2 k v) selfProps =
        dictCell (get_properties h selfProps).1 selfProps := by
      simp only [dictAssign, dictCell]
      rw [dictAssign_find?_ne _ _ _ _ _ hne.symm]
    rw [this, hcell]
  · intro k a v hk hamem
    have hdicts : (listAppend (get_properties h selfProps).1 a v).dicts =
        (get_properties h selfProps).1.dicts := rfl
    have hview : dictCell (listAppend (get_properties h selfProps).1 a v) selfProps =
        dictCell h selfProps := by
      simp only [dictCell, hdicts]
      have := hcell
      simp only [dictCell] at this
      exact this
    simp only [viewListField, hview, hk]
    have hlists : (get_properties h selfProps).1.lists = h.lists := rfl
    have : listAppend (get_properties h selfProps).1 a v =
        ⟨(get_properties h selfProps).1.dicts, (listAppend h a v).lists⟩ := by
      simp [listAppend, hlists]
    rw [this]
    have hl : listCell ⟨(get_properties h selfProps).1.dicts,
        (listAppend h a v).lists⟩ a = listCell (listAppend h a v) a := rfl
    rw [hl, listCell_listAppend_self h a v hamem]

/-- C5 witness: a one-record heap; the copy is fresh, top-level writes
through it do not touch the live record, nested appends do. -/
theorem c5_witness :
    (get_properties ⟨[(0, [("Derzeitige Beschäftigung", ObjVal.ref 10)])],
        [(10, [ObjVal.str "Uni A"])]⟩ 0).2 ≠ 0 ∧
    dictCell (get_properties ⟨[(0, [("Derzeitige Beschäftigung", ObjVal.ref 10)])],
        [(10, [ObjVal.str "Uni A"])]⟩ 0).1
      (get_properties ⟨[(0, [("Derzeitige Beschäftigung", ObjVal.ref 10)])],
        [(10, [ObjVal.str "Uni A"])]⟩ 0).2 =
      dictCell ⟨[(0, [("Derzeitige Beschäftigung", ObjVal.ref 10)])],
        [(10, [ObjVal.str "Uni A"])]⟩ 0 ∧
    (∀ k v, dictCell (dictAssign (get_properties
        ⟨[(0, [("Derzeitige Beschäftigung", ObjVal.ref 10)])],
          [(10, [ObjVal.str "Uni A"])]⟩ 0).1
        (get_properties ⟨[(0, [("Derzeitige Beschäftigung", ObjVal.ref 10)])],
          [(10, [ObjVal.str "Uni A"])]⟩ 0).2 k v) 0 =
      dictCell ⟨[(0, [("Derzeitige Beschäftigung", ObjVal.ref 10)])],
        [(10, [ObjVal.str "Uni A"])]⟩ 0) ∧
    (∀ k a v, (dictCell ⟨[(0, [("Derzeitige Beschäftigung", ObjVal.ref 10)])],
        [(10, [ObjVal.str "Uni A"])]⟩ 0).lookup k = some (.ref a) →
      a ∈ ([(10, [ObjVal.str "Uni A"])] : List (Nat × List ObjVal)).map Prod.fst →
      viewListField (listAppend (get_properties
          ⟨[(0, [("Derzeitige Beschäftigung", ObjVal.ref 10)])],
            [(10, [ObjVal.str "Uni A"])]⟩ 0).1 a v) 0 k =
        listCell ⟨[(0, [("Derzeitige Beschäftigung", ObjVal.ref 10)])],
          [(10, [ObjVal.str "Uni A"])]⟩ a ++ [v]) :=
  c5_get_properties_shallow_copy
    ⟨[(0, [("Derzeitige Beschäftigung", ObjVal.ref 10)])],
      [(10, [ObjVal.str "Uni A"])]⟩ 0 (by decide)

/-- C5 counterexample to the claim as stated: the copy returned by
`get_properties` shares the 'Derzeitige Beschäftigung' list object with the
live record, so appending an entry through the copy changes the live
record's backing structure — the returned structure is not the claimed deep
snapshot. -/
theorem c5_counterexample :
    (dictCell (get_properties ⟨[(0, [("Derzeitige Beschäftigung", ObjVal.ref 10)])],
          [(10, [ObjVal.str "Uni A"])]⟩ 0).1
        (get_properties ⟨[(0, [("Derzeitige Beschäftigung", ObjVal.ref 10)])],
          [(10, [ObjVal.str "Uni A"])]⟩ 0).2).lookup "Derzeitige Beschäftigung" =
      some (ObjVal.ref 10) ∧
    viewListField (listAppend (get_properties
        ⟨[(0, [("Derzeitige Beschäftigung", ObjVal.ref 10)])],
          [(10, [ObjVal.str "Uni A"])]⟩ 0).1 10 (ObjVal.str "Uni B")) 0
        "Derzeitige Beschäftigung" ≠
      viewListField ⟨[(0, [("Derzeitige Beschäftigung", ObjVal.ref 10)])],
        [(10, [ObjVal.str "Uni A"])]⟩ 0 "Derzeitige Beschäftigung" := by
  constructor
  · rfl
  · decide

/-! ## C6 -/

theorem backoffSeq_closed (n : Nat) : backoffSeq n = min (2 ^ n) 60 := by
  induction n with
  | zero => rfl
  | succ k ih =>
    rw [backoffSeq, ih, pow_succ]
    rcases Nat.le_total 60 (2 ^ k) with h | h
    · have h1 : min (2 ^ k) 60 = 60 := by omega
      have h2 : (60 : Nat) ≤ 2 ^ k * 2 := by omega
      omega
    · have h1 : min (2 ^ k) 60 = 2 ^ k := by omega
      omega

theorem searchGo_all429 (attempts : Nat → WOutcome) (s : String)
    (hall : ∀ n, attempts n = .rate429) :
    ∀ (r i k : Nat), searchGo attempts s r i (backoffSeq k) =
      (s, (List.range r).map (fun t => backoffSeq (k + t))) := by
  intro r
  induction r with
  | zero => intro i k; rfl
  | succ r ih =>
    intro i k
    have : searchGo attempts s (r + 1) i (backoffSeq k) =
        (let rec0 := searchGo attempts s r (i + 1) (min (backoffSeq k * 2) 60)
         (rec0.1, backoffSeq k :: rec0.2)) := by
      simp only [searchGo, hall i]
    rw [this]
    have hb : min (backoffSeq k * 2) 60 = backoffSeq (k + 1) := rfl
    rw [hb, ih (i + 1) (k + 1)]
    rw [List.range_succ_eq_map, List.map_cons, List.map_map]
    have hfun : ((fun t => backoffSeq (k + t)) ∘ Nat.succ) =
        (fun t => backoffSeq (k + 1 + t)) := by
      funext t
      simp only [Function.comp_apply]
      exact congrArg backoffSeq (by omega)
    rw [hfun]
    simp

theorem searchGo_failure (attempts : Nat → WOutcome) (s : String) :
    ∀ (r j i b : Nat), j < r →
      (∀ t, t < j → attempts (i + t) = .rate429) →
      (attempts (i + j) = .requestError ∨ attempts (i + j) = .decodeError ∨
        attempts (i + j) = .results []) →
      (searchGo attempts s r i b).1 = s := by
  intro r
  induction r with
  | zero => intro j i b hj _ _; omega
  | succ r ih =>
    intro j i b hj hpre hfail
    cases j with
    | zero =>
      rcases hfail with h | h | h <;>
        (simp only [Nat.add_zero] at h; simp [searchGo, h])
    | succ j' =>
      have h0 : attempts i = .rate429 := by
        have := hpre 0 (by omega)
        simpa using this
      simp only [searchGo, h0]
      refine ih j' (i + 1) (min (b * 2) 60) (by omega) ?_ ?_
      · intro t ht
        have heq : i + 1 + t = i + (t + 1) := by omega
        rw [heq]
        exact hpre (t + 1) (by omega)
      · have heq : i + 1 + j' = i + (j' + 1) := by omega
        rw [heq]
        exact hfail

/-- C6: `search_wikidata_id` never raises (it is a total function of the
attempt outcomes, since every exception its body can raise is caught).  When
every attempt up to the retry budget yields a 429, it returns the original
search string after sleeping the exponential-backoff schedule — 1 second
doubled per retry and capped at 60 — once per attempt; and at whichever
attempt within the budget the first non-429 outcome occurs, a request
exception, a decode failure, or an empty search-result list each make it
return the input string unchanged. -/
theorem c6_search_wikidata_id_fallback (attempts : Nat → WOutcome) (s : String)
    (max_retries : Nat) :
    ((∀ n, attempts n = .rate429) →
      search_wikidata_id attempts s max_retries =
        (s, (List.range (max_retries + 1)).map (fun i => min (2 ^ i) 60))) ∧
    (∀ j, j ≤ max_retries →
      (∀ t, t < j → attempts t = .rate429) →
      (attempts j = .requestError ∨ attempts j = .decodeError ∨
        attempts j = .results []) →
      (search_wikidata_id attempts s max_retries).1 = s) := by
  constructor
  · intro hall
    unfold search_wikidata_id
    refine (searchGo_all429 attempts s hall (max_retries + 1) 0 0).trans ?_
    refine congrArg (Prod.mk s) ?_
    refine List.map_congr_left ?_
    intro t _
    rw [Nat.zero_add, backoffSeq_closed]
  · intro j hj hpre hfail
    unfold search_wikidata_id
    refine searchGo_failure attempts s (max_retries + 1) j 0 1 (by omega) ?_ ?_
    · intro t ht
      rw [Nat.zero_add]
      exact hpre t ht
    · rw [Nat.zero_add]
      exact hfail

/-- C6 witness: with a budget of one retry and every attempt rate-limited,
the result echoes the input after sleeps of 1 and 2 seconds; and a decode
failure on the first attempt echoes the input. -/
theorem c6_witness :
    search_wikidata_id (fun _ => WOutcome.rate429) "Uni Foo" 1 =
      ("Uni Foo", (List.range 2).map (fun i => min (2 ^ i) 60)) ∧
    (search_wikidata_id (fun _ => WOutcome.decodeError) "Uni Foo" 5).1 = "Uni Foo" :=
  ⟨(c6_search_wikidata_id_fallback (fun _ => WOutcome.rate429) "Uni Foo" 1).1
      (fun _ => rfl),
   (c6_search_wikidata_id_fallback (fun _ => WOutcome.decodeError) "Uni Foo" 5).2
      0 (by omega) (fun t ht => absurd ht (by omega)) (Or.inr (Or.inl rfl))⟩

/-! ## C7 -/

/-- The five fields the deserialization path reconstructs. -/
def fiveFields : List String :=
  ["Vorname", "Nachname", "Derzeitige Beschäftigung", "Forschungsinteressen", "E-Mail"]

/-- Shape of every properties dictionary `populate_from_csv` stores. -/
def GoodProps (d : Props) : Prop :=
  ∃ gn fn emp kws mail tags,
    d = [("Vorname", PropVal.s gn), ("Nachname", PropVal.s fn),
         ("Derzeitige Beschäftigung", PropVal.emps emp),
         ("Forschungsinteressen", PropVal.strs kws),
         ("E-Mail", PropVal.s mail), ("TaDiRAH-Zuordnung", PropVal.strs tags)]

def AllGood (m : List (String × Props)) : Prop := ∀ p ∈ m, GoodProps p.2

theorem AllGood_dictSet (m : List (String × Props)) (k : String) (v : Props)
    (hm : AllGood m) (hv : GoodProps v) : AllGood (dictSet m k v) := by
  induction m with
  | nil =>
    intro p hp
    simp only [dictSet, List.mem_singleton] at hp
    subst hp
    exact hv
  | cons c0 rest ih =>
    intro p hp
    simp only [dictSet] at hp
    by_cases hk : c0.1 = k
    · rw [if_pos (by simpa using hk)] at hp
      rcases List.mem_cons.mp hp with rfl | hm2
      · exact hv
      · exact hm _ (List.mem_cons_of_mem _ hm2)
    · rw [if_neg (by simpa using hk)] at hp
      rcases List.mem_cons.mp hp with rfl | hm2
      · exact hm _ (List.mem_cons_self _ _)
      · exact ih (fun q hq => hm q (List.mem_cons_of_mem _ hq)) p hm2

theorem populateLoop_AllGood (netp : String → FetchRes PersonData)
    (neta : String → FetchRes ActivitiesData)
    (tmap : List (String × List String)) (today : PyDate) :
    ∀ (orcids : List String) (st st' : BaseState), AllGood st.raw →
      populateLoop netp neta tmap today orcids st = .ok st' → AllGood st'.raw := by
  intro orcids
  induction orcids with
  | nil =>
    intro st st' hg heq
    simp only [populateLoop] at heq
    exact Except.ok.inj heq ▸ hg
  | cons o rest ih =>
    intro st st' hg heq
    simp only [populateLoop, Bind.bind, Except.bind] at heq
    cases hp : fetch_orcid_data (netp o) with
    | error e => rw [hp] at heq; exact absurd heq (by simp)
    | ok p? =>
      rw [hp] at heq
      cases ha : fetch_orcid_data (neta o) with
      | error e => rw [ha] at heq; exact absurd heq (by simp)
      | ok a? =>
        rw [ha] at heq
        cases p? with
        | none => cases a? <;> exact ih st st' hg heq
        | some p =>
          cases a? with
          | none => exact ih st st' hg heq
          | some a =>
            simp only [Bind.bind, Except.bind] at heq
            cases hk : extract_keywords p with
            | error e => rw [hk] at heq; exact absurd heq (by simp)
            | ok kws =>
              rw [hk] at heq
              cases he : extract_current_employments today a with
              | error e => rw [he] at heq; exact absurd heq (by simp)
              | ok emp =>
                rw [he] at heq
                cases ht : tmap.lookup o with
                | none => rw [ht] at heq; exact absurd heq (by simp)
                | some tags =>
                  rw [ht] at heq
                  exact ih _ st'
                    (AllGood_dictSet _ _ _ hg
                      ⟨_, _, _, _, _, _, rfl⟩) heq

theorem lookup_some_mem {α : Type} (l : List (String × α)) (k : String) (v : α)
    (h : l.lookup k = some v) : (k, v) ∈ l := by
  induction l with
  | nil => simp [List.lookup] at h
  | cons c0 rest ih =>
    obtain ⟨k0, v0⟩ := c0
    by_cases hk : k = k0
    · subst hk
      simp only [List.lookup, beq_self_eq_true] at h
      exact Option.some.inj h ▸ List.mem_cons_self _ _
    · have hb : (k == k0) = false := by rw [beq_eq_false_iff_ne]; exact hk
      simp only [List.lookup, hb] at h
      exact List.mem_cons_of_mem _ (ih h)

theorem lookup_map_snd {α β : Type} (l : List (String × α)) (f : α → β) (k : String) :
    (l.map (fun p => (p.1, f p.2))).lookup k = (l.lookup k).map f := by
  induction l with
  | nil => rfl
  | cons c0 rest ih =>
    obtain ⟨k0, v0⟩ := c0
    by_cases hk : k = k0
    · subst hk; simp [List.lookup]
    · have hb : (k == k0) = false := by rw [beq_eq_false_iff_ne]; exact hk
      simp only [List.map_cons, List.lookup, hb, ih]

theorem deserializeRecord_good (d : Props) (hg : GoodProps d) :
    ∀ f ∈ fiveFields, (deserializeRecord d).lookup f = d.lookup f := by
  obtain ⟨gn, fn, emp, kws, mail, tags, rfl⟩ := hg
  intro f hf
  fin_cases hf <;> rfl

/-- C7: round-trip.  For every expert base built by `populate_from_csv`,
deserializing the serialized raw store reconstructs, for each identifier, a
record agreeing with the pre-serialization record on 'Vorname', 'Nachname',
'Derzeitige Beschäftigung', 'Forschungsinteressen' and 'E-Mail' (the fields
the reconstruction path keeps; 'TaDiRAH-Zuordnung' is dropped), and a field
absent from a stored dictionary defaults to the empty string / empty
sequence. -/
theorem c7_serialize_roundtrip (rows : List (List String))
    (netp : String → FetchRes PersonData) (neta : String → FetchRes ActivitiesData)
    (today : PyDate) (st : BaseState)
    (hok : populate_from_csv rows netp neta today = .ok st) :
    (∀ o d, st.raw.lookup o = some d →
      ∃ d', (deserialize_expertbase (serialize_expertbase st)).base.lookup o = some d' ∧
        ∀ f ∈ fiveFields, d'.lookup f = d.lookup f) ∧
    (∀ d : Props, d.lookup "Vorname" = none →
      (deserializeRecord d).lookup "Vorname" = some (.s "")) ∧
    (∀ d : Props, d.lookup "Derzeitige Beschäftigung" = none →
      (deserializeRecord d).lookup "Derzeitige Beschäftigung" = some (.emps [])) ∧
    (∀ d : Props, d.lookup "Forschungsinteressen" = none →
      (deserializeRecord d).lookup "Forschungsinteressen" = some (.strs [])) := by
  have hgood : AllGood st.raw := by
    simp only [populate_from_csv, Bind.bind, Except.bind] at hok
    cases ho : read_orcids_from_csv rows with
    | error e => rw [ho] at hok; exact absurd hok (by simp)
    | ok orcids =>
      rw [ho] at hok
      cases ht : create_tadirah_map rows with
      | error e => rw [ht] at hok; exact absurd hok (by simp)
      | ok tmap =>
        rw [ht] at hok
        exact populateLoop_AllGood netp neta tmap today orcids ⟨[], []⟩ st
          (by intro p hp; simp at hp) hok
  refine ⟨?_, ?_, ?_, ?_⟩
  · intro o d hd
    refine ⟨deserializeRecord d, ?_, ?_⟩
    · simp only [deserialize_expertbase, serialize_expertbase]
      rw [lookup_map_snd st.raw deserializeRecord o, hd]
      rfl
    · exact deserializeRecord_good d (hgood (o, d) (lookup_some_mem _ _ _ hd))
  · intro d h
    have hstep : (deserializeRecord d).lookup "Vorname" =
        (d.lookup "Vorname").getD (.s "") := rfl
    rw [hstep, h]
    rfl
  · intro d h
    have hstep : (deserializeRecord d).lookup "Derzeitige Beschäftigung" =
        (d.lookup "Derzeitige Beschäftigung").getD (.emps []) := rfl
    rw [hstep, h]
    rfl
  · intro d h
    have hstep : (deserializeRecord d).lookup "Forschungsinteressen" =
        (d.lookup "Forschungsinteressen").getD (.strs []) := rfl
    rw [hstep, h]
    rfl

def c7Person : PersonData :=
  ⟨⟨some "Ada", some "L"⟩, [some "a@b"], some [some "kw"]⟩

def c7Act : ActivitiesData :=
  ⟨[⟨[⟨some "r", some "d", some "o", none⟩]⟩]⟩

def c7Props : Props :=
  [("Vorname", PropVal.s "Ada"), ("Nachname", PropVal.s "L"),
   ("Derzeitige Beschäftigung", PropVal.emps [("r", "d", "o")]),
   ("Forschungsinteressen", PropVal.strs ["kw"]),
   ("E-Mail", PropVal.s "a@b"), ("TaDiRAH-Zuordnung", PropVal.strs ["a", "b"])]

def c7St : BaseState :=
  ⟨[("0000-0001", c7Props)], [("0000-0001", c7Props)]⟩

/-- C7 witness: one concrete registry record round-trips. -/
theorem c7_witness :
    ∃ d', (deserialize_expertbase (serialize_expertbase c7St)).base.lookup
        "0000-0001" = some d' ∧
      ∀ f ∈ fiveFields, d'.lookup f = c7Props.lookup f :=
  (c7_serialize_roundtrip [["name", "orcid", "tadirah"], ["Alice", "0000-0001", "a, b"]]
      (fun _ => FetchRes.ok c7Person) (fun _ => FetchRes.ok c7Act)
      ⟨2024, 6, 15⟩ c7St (by rfl)).1 "0000-0001" c7Props (by rfl)

/-! ## C8 -/

theorem not_contains_append_singleton {α : Type} [BEq α] [LawfulBEq α]
    (A : List α) (x y : α) :
    (!(A ++ [x]).contains y) = ((y != x) && !A.contains y) := by
  rw [Bool.eq_iff_iff]
  simp only [Bool.not_eq_true', Bool.and_eq_true, bne_iff_ne]
  simp [List.elem_eq_mem, List.mem_append]
  tauto

theorem foldl_distinct_spec :
    ∀ (l acc : List String),
      l.foldl (fun acc x => if acc.contains x then acc else acc ++ [x]) acc =
        acc ++ specDistinct (l.filter (fun x => !acc.contains x)) := by
  intro l
  induction l with
  | nil => intro acc; simp [specDistinct]
  | cons x xs ih =>
    intro acc
    rw [List.foldl_cons, List.filter_cons]
    by_cases hx : acc.contains x
    · rw [if_pos hx]
      have hnx : (!acc.contains x) = false := by rw [hx]; rfl
      rw [hnx]
      simp only [Bool.false_eq_true, if_false]
      exact ih acc
    · have hx' : acc.contains x = false := Bool.eq_false_iff.mpr hx
      rw [if_neg hx]
      have hnx : (!acc.contains x) = true := by rw [hx']; rfl
      rw [hnx]
      simp only [if_true]
      rw [ih (acc ++ [x]), specDistinct, List.filter_filter]
      have hfe : (xs.filter (fun y => !(acc ++ [x]).contains y)) =
          xs.filter (fun a => (a != x) && (!acc.contains a)) := by
        apply List.filter_congr
        intro y _
        exact not_contains_append_singleton acc x y
      rw [hfe]
      simp [List.append_assoc]

theorem foldl_keydedup_spec (resolve : String → String) :
    ∀ (l : List String) (acc : List (String × String)),
      ((l.foldl (fun acc org => if (acc.map Prod.fst).contains (resolve org) then acc
          else acc ++ [(resolve org, org)]) acc).map Prod.snd) =
        acc.map Prod.snd ++ specDedupByKey resolve
          (l.filter (fun o => !(acc.map Prod.fst).contains (resolve o))) := by
  intro l
  induction l with
  | nil => intro acc; simp [specDedupByKey]
  | cons x xs ih =>
    intro acc
    rw [List.foldl_cons, List.filter_cons]
    by_cases hx : (acc.map Prod.fst).contains (resolve x)
    · rw [if_pos hx]
      have hnx : (!(acc.map Prod.fst).contains (resolve x)) = false := by
        rw [hx]; rfl
      rw [hnx]
      simp only [Bool.false_eq_true, if_false]
      exact ih acc
    · have hx' : (acc.map Prod.fst).contains (resolve x) = false :=
        Bool.eq_false_iff.mpr hx
      rw [if_neg hx]
      have hnx : (!(acc.map Prod.fst).contains (resolve x)) = true := by
        rw [hx']; rfl
      rw [hnx]
      simp only [if_true]
      rw [ih (acc ++ [(resolve x, x)]), specDedupByKey, List.filter_filter]
      have hfe : (xs.filter (fun y =>
          !((acc ++ [(resolve x, x)]).map Prod.fst).contains (resolve y))) =
          xs.filter (fun a => (resolve a != resolve x) &&
            (!(acc.map Prod.fst).contains (resolve a))) := by
        apply List.filter_congr
        intro y _
        rw [List.map_append]
        simp only [List.map_cons, List.map_nil]
        exact not_contains_append_singleton (acc.map Prod.fst) (resolve x) (resolve y)
      rw [hfe]
      simp [List.append_assoc]

theorem get_organisation_spec (resolve : String → String)
    (emps : List (String × String × String)) :
    get_organisation resolve emps =
      specDedupByKey resolve (specDistinct (emps.map (fun e => e.2.2))) := by
  unfold get_organisation
  have h1 : emps.foldl (fun acc e => if acc.contains e.2.2 then acc
      else acc ++ [e.2.2]) [] =
      (emps.map (fun e => e.2.2)).foldl (fun acc x => if acc.contains x then acc
        else acc ++ [x]) [] := by
    rw [List.foldl_map]
  rw [h1, foldl_distinct_spec]
  have h2 : ((emps.map (fun e => e.2.2)).filter
      (fun x => !(([] : List String).contains x))) = emps.map (fun e => e.2.2) := by
    simp
  rw [List.nil_append, h2, foldl_keydedup_spec]
  have h3 : ((specDistinct (emps.map (fun e => e.2.2))).filter
      (fun o => !((([] : List (String × String)).map Prod.fst).contains (resolve o)))) =
      specDistinct (emps.map (fun e => e.2.2)) := by
    simp
  rw [h3]
  simp

theorem specDedupByKey_mem (resolve : String → String) :
    ∀ (n : Nat) (l : List String), l.length ≤ n → ∀ o, o ∈ l → resolve o = o →
      (∀ o2 ∈ l, o2 ≠ o → resolve o2 ≠ o) → o ∈ specDedupByKey resolve l := by
  intro n
  induction n with
  | zero =>
    intro l hl o ho _ _
    rw [Nat.le_zero, List.length_eq_zero] at hl
    subst hl
    simp at ho
  | succ n ih =>
    intro l hl o ho hres hothers
    cases l with
    | nil => simp at ho
    | cons x xs =>
      rw [specDedupByKey]
      by_cases hxo : x = o
      · subst hxo
        exact List.mem_cons_self _ _
      · have hmem : o ∈ xs := by
          rcases List.mem_cons.mp ho with he | hm
          · exact absurd he.symm hxo
          · exact hm
        have hkey : resolve x ≠ o := hothers x (List.mem_cons_self _ _) hxo
        have hpass : o ∈ xs.filter (fun y => resolve y != resolve x) := by
          rw [List.mem_filter]
          refine ⟨hmem, ?_⟩
          rw [hres, bne_iff_ne]
          exact fun e => hkey e.symm
        have hsub : ∀ o2 ∈ xs.filter (fun y => resolve y != resolve x),
            o2 ≠ o → resolve o2 ≠ o := fun o2 ho2 =>
          hothers o2 (List.mem_cons_of_mem _ (List.mem_filter.mp ho2).1)
        have hlen : (xs.filter (fun y => resolve y != resolve x)).length ≤ n := by
          have h1 := List.length_filter_le (fun y => resolve y != resolve x) xs
          simp only [List.length_cons] at hl
          omega
        exact List.mem_cons_of_mem _ (ih _ hlen o hpass hres hsub)

/-- C8 (amended): `get_organisation` returns, in order of first appearance of
the lookup key, the first organization name seen for each distinct key that
the resolver produces over the record's distinct current-employment
organization names.  A name whose lookup echoes the input counts as its own
key, and two different unresolved spellings both appear in the result
provided no other distinct organization name resolves to a key equal to
either spelling (without that proviso the claim fails, see
`c8_counterexample`). -/
theorem c8_get_organisation_dedup (resolve : String → String)
    (emps : List (String × String × String)) :
    get_organisation resolve emps =
      specDedupByKey resolve (specDistinct (emps.map (fun e => e.2.2))) ∧
    (∀ o1 o2, o1 ∈ specDistinct (emps.map (fun e => e.2.2)) →
      o2 ∈ specDistinct (emps.map (fun e => e.2.2)) → o1 ≠ o2 →
      resolve o1 = o1 → resolve o2 = o2 →
      (∀ o3 ∈ specDistinct (emps.map (fun e => e.2.2)), o3 ≠ o1 → resolve o3 ≠ o1) →
      (∀ o3 ∈ specDistinct (emps.map (fun e => e.2.2)), o3 ≠ o2 → resolve o3 ≠ o2) →
      o1 ∈ get_organisation resolve emps ∧ o2 ∈ get_organisation resolve emps) := by
  refine ⟨get_organisation_spec resolve emps, ?_⟩
  intro o1 o2 h1 h2 _ hr1 hr2 ho1 ho2
  rw [get_organisation_spec resolve emps]
  exact ⟨specDedupByKey_mem resolve _ _ (Nat.le_refl _) o1 h1 hr1 ho1,
    specDedupByKey_mem resolve _ _ (Nat.le_refl _) o2 h2 hr2 ho2⟩

/-- C8 witness: with an identity resolver, two unresolved organization names
both survive deduplication. -/
theorem c8_witness :
    "Uni A" ∈ get_organisation (fun s => s)
        [("r", "d", "Uni A"), ("r2", "d2", "Uni B")] ∧
    "Uni B" ∈ get_organisation (fun s => s)
        [("r", "d", "Uni A"), ("r2", "d2", "Uni B")] :=
  (c8_get_organisation_dedup (fun s => s)
      [("r", "d", "Uni A"), ("r2", "d2", "Uni B")]).2 "Uni A" "Uni B"
    (by simp [specDistinct]) (by simp [specDistinct]) (by decide) rfl rfl
    (by simp [specDistinct]) (by simp [specDistinct])

/-- C8 counterexample to the claim as stated: "Q42a" and "Q42b" are two
different unresolved spellings (the resolver echoes both), yet "Q42a" does
not appear in the result, because the earlier name "Inst A" resolves to the
key "Q42a" and claims it first. -/
theorem c8_counterexample :
    (fun s => if s = "Inst A" then "Q42a" else s) "Q42a" = "Q42a" ∧
    (fun s => if s = "Inst A" then "Q42a" else s) "Q42b" = "Q42b" ∧
    "Q42a" ≠ "Q42b" ∧
    get_organisation (fun s => if s = "Inst A" then "Q42a" else s)
        [("r", "d", "Inst A"), ("r", "d", "Q42a"), ("r", "d", "Q42b")] =
      ["Inst A", "Q42b"] ∧
    "Q42a" ∉ get_organisation (fun s => if s = "Inst A" then "Q42a" else s)
        [("r", "d", "Inst A"), ("r", "d", "Q42a"), ("r", "d", "Q42b")] := by
  refine ⟨by decide, by decide, by decide, by rfl, by decide⟩

/-! ## C9 -/

theorem formatStep_ok (k : String) (h : k ≠ "") :
    formatStep k = .ok (match k.toList with
      | [] => k
      | c :: _ => if ¬c.isAlphanum then stripSpecials k else k) := by
  cases hl : k.toList with
  | nil =>
    exfalso
    obtain ⟨d⟩ := k
    have hd : d = [] := by simpa using hl
    subst hd
    exact h rfl
  | cons c cs =>
    have hl2 : k.data = c :: cs := hl
    simp [formatStep, String.toList, hl2]

theorem mapM_formatStep_ok (l : List String) (h : ∀ p ∈ l, p ≠ "") :
    l.mapM formatStep = .ok (l.map (fun k =>
      match k.toList with
      | [] => k
      | c :: _ => if ¬c.isAlphanum then stripSpecials k else k)) := by
  induction l with
  | nil => rfl
  | cons p ps ih =>
    rw [List.mapM_cons, formatStep_ok p (h p (List.mem_cons_self _ _)),
      ih (fun q hq => h q (List.mem_cons_of_mem _ hq))]
    rfl

/-- C9 (amended): for every record whose research-interest list is a single
entry containing commas, provided each comma-separated part is non-empty
after trimming, the formatted accessor splits the entry at commas into
trimmed parts and then formats each part (selected special characters
stripped when the first character is not alphanumeric, then title-cased),
joining the results with semicolons — one output entry per part.  (An empty
part raises instead, see `c9_counterexample`.) -/
theorem c9_single_entry_split_then_format (s : String)
    (hc : pyHasComma s = true)
    (hne : ∀ p ∈ (pySplitComma s).map pyStrip, p ≠ "") :
    get_research_interest_formated [s] = .ok (specSplitThenFormat s) := by
  unfold get_research_interest_formated
  simp only [hc, if_true]
  rw [mapM_formatStep_ok _ hne]
  simp only [Bind.bind, Except.bind, specSplitThenFormat, List.map_map]
  refine congrArg Except.ok (congrArg (pyJoin ";") ?_)
  apply List.map_congr_left
  intro p _
  simp only [Function.comp_apply, specFormatKeyword]

/-- C9 witness: `["a, b, c"]` is split into three parts and formatted as
`A;B;C` rather than being treated as one keyword. -/
theorem c9_witness :
    get_research_interest_formated ["a, b, c"] =
      .ok (specSplitThenFormat "a, b, c") ∧
    get_research_interest_formated ["a, b, c"] = .ok "A;B;C" :=
  ⟨c9_single_entry_split_then_format "a, b, c" (by decide) (by decide), by rfl⟩

/-- C9 counterexample to the claim as stated: the single entry `"a,,b"`
contains commas, but its middle part is empty, and the formatting loop
raises `IndexError` at `keyword[0]` instead of producing one output entry
per part. -/
theorem c9_counterexample :
    get_research_interest_formated ["a,,b"] = .error () := rfl

/-! ## C10 -/

theorem tadirahRow_ok (row : List String) (h3 : 3 ≤ row.length) :
    tadirahRow row = .ok (pyStrip ((row.get? 1).getD ""),
      if pyHasComma ((row.get? 2).getD "") then
        some ((pySplitComma ((row.get? 2).getD "")).map pyStrip) else none) := by
  have h1 : row[1]? = some row[1] :=
    List.getElem?_eq_getElem (by omega : 1 < row.length)
  have h2 : row[2]? = some row[2] :=
    List.getElem?_eq_getElem (by omega : 2 < row.length)
  simp only [tadirahRow, List.get?_eq_getElem?, h1, h2, Option.getD_some]
  rfl

theorem mapM_tadirahRow_ok (data : List (List String))
    (h3 : ∀ row ∈ data, 3 ≤ row.length) :
    data.mapM tadirahRow = .ok (data.map (fun row =>
      (pyStrip ((row.get? 1).getD ""),
       if pyHasComma ((row.get? 2).getD "") then
         some ((pySplitComma ((row.get? 2).getD "")).map pyStrip) else none))) := by
  induction data with
  | nil => rfl
  | cons r rs ih =>
    rw [List.mapM_cons, tadirahRow_ok r (h3 r (List.mem_cons_self _ _)),
      ih (fun q hq => h3 q (List.mem_cons_of_mem _ hq))]
    rfl

theorem dictSet_append_new {α : Type} (acc : List (String × α)) (k : String) (v : α)
    (h : k ∉ acc.map Prod.fst) : dictSet acc k v = acc ++ [(k, v)] := by
  induction acc with
  | nil => rfl
  | cons c0 rest ih =>
    have hk : c0.1 ≠ k := by
      intro e
      exact h (by rw [← e]; exact List.mem_map_of_mem Prod.fst (List.mem_cons_self _ _))
    obtain ⟨k0, v0⟩ := c0
    simp only [dictSet]
    rw [if_neg (by simpa using hk)]
    rw [ih (fun hm => h (by simp at hm ⊢; exact Or.inr hm))]
    simp

theorem foldl_dictSet_nodup {α : Type} :
    ∀ (pairs acc : List (String × α)),
      (∀ p ∈ pairs, p.1 ∉ acc.map Prod.fst) → (pairs.map Prod.fst).Nodup →
      pairs.foldl (fun acc p => dictSet acc p.1 p.2) acc = acc ++ pairs := by
  intro pairs
  induction pairs with
  | nil => intro acc _ _; simp
  | cons p ps ih =>
    intro acc hnew hnd
    rw [List.foldl_cons, dictSet_append_new acc p.1 p.2
      (hnew p (List.mem_cons_self _ _))]
    rw [List.map_cons, List.nodup_cons] at hnd
    rw [ih (acc ++ [(p.1, p.2)]) ?_ hnd.2]
    · simp
    · intro q hq
      rw [List.map_append, List.mem_append]
      rintro (hin | hin)
      · exact hnew q (List.mem_cons_of_mem _ hq) hin
      · simp only [List.map_cons, List.map_nil, List.mem_singleton] at hin
        exact hnd.1 (hin ▸ List.mem_map_of_mem Prod.fst hq)

theorem lookup_of_mem_nodup {α : Type} :
    ∀ (l : List (String × α)) (k : String) (v : α), (l.map Prod.fst).Nodup →
      (k, v) ∈ l → l.lookup k = some v := by
  intro l
  induction l with
  | nil => intro k v _ hm; simp at hm
  | cons c0 rest ih =>
    intro k v hnd hm
    obtain ⟨k0, v0⟩ := c0
    rw [List.map_cons, List.nodup_cons] at hnd
    rcases List.mem_cons.mp hm with he | hm2
    · injection he with h1 h2
      subst h1
      subst h2
      simp [List.lookup]
    · have hk : k ≠ k0 := by
        intro e
        apply hnd.1
        rw [← e]
        have hx := List.mem_map_of_mem Prod.fst hm2
        simpa using hx
      have hb : (k == k0) = false := by rw [beq_eq_false_iff_ne]; exact hk
      simp only [List.lookup, hb]
      exact ih k v hnd.2 hm2

def c10Person : PersonData := ⟨⟨some "G", some "F"⟩, [], some []⟩

def c10Act : ActivitiesData := ⟨[]⟩

/-- C10: `create_tadirah_map` collects every data row's identifier but
appends a tag list only for rows whose third column contains a comma, then
zips positionally.  Under the precondition that every data row's third
column contains a comma (and identifiers are distinct), each identifier maps
to its own row's tags.  Without it, identifiers pair with later rows' tags
or fall off the zip: in the concrete CSV below, `o1` (comma-less row)
receives `o2`'s tags and `o2` is dropped, and `populate_from_csv`'s
unguarded `tadirah_map[orcid]` lookup then raises `KeyError` for the
successfully fetched identifier `o2`. -/
theorem c10_tadirah_zip_misalignment
    (header : List String) (data : List (List String))
    (h3 : ∀ row ∈ data, 3 ≤ row.length)
    (hc : ∀ row ∈ data, pyHasComma ((row.get? 2).getD "") = true)
    (hnd : (data.map (fun r => pyStrip ((r.get? 1).getD ""))).Nodup) :
    (∃ m, create_tadirah_map (header :: data) = .ok m ∧
      ∀ row ∈ data, m.lookup (pyStrip ((row.get? 1).getD "")) =
        some ((pySplitComma ((row.get? 2).getD "")).map pyStrip)) ∧
    create_tadirah_map [["name", "orcid", "tadirah"], ["x", "o1", "t"],
      ["x", "o2", "a, b"]] = .ok [("o1", ["a", "b"])] ∧
    populate_from_csv [["name", "orcid", "tadirah"], ["x", "o1", "t"],
      ["x", "o2", "a, b"]] (fun _ => FetchRes.ok c10Person)
      (fun _ => FetchRes.ok c10Act) ⟨2024, 6, 15⟩ = .error () := by
  refine ⟨?_, by rfl, by rfl⟩
  have hmap : data.map (fun row =>
      (pyStrip ((row.get? 1).getD ""),
       if pyHasComma ((row.get? 2).getD "") then
         some ((pySplitComma ((row.get? 2).getD "")).map pyStrip) else none)) =
      data.map (fun row =>
        (pyStrip ((row.get? 1).getD ""),
         some ((pySplitComma ((row.get? 2).getD "")).map pyStrip))) := by
    apply List.map_congr_left
    intro row hrow
    rw [hc row hrow]
    simp
  refine ⟨data.map (fun row =>
    (pyStrip ((row.get? 1).getD ""),
     (pySplitComma ((row.get? 2).getD "")).map pyStrip)), ?_, ?_⟩
  · simp only [create_tadirah_map, Bind.bind, Except.bind,
      mapM_tadirahRow_ok data h3, hmap]
    have hfst : (data.map (fun row =>
        (pyStrip ((row.get? 1).getD ""),
         some ((pySplitComma ((row.get? 2).getD "")).map pyStrip)))).map Prod.fst =
        data.map (fun r => pyStrip ((r.get? 1).getD "")) := by
      rw [List.map_map]
      rfl
    have hsnd : (data.map (fun row =>
        (pyStrip ((row.get? 1).getD ""),
         some ((pySplitComma ((row.get? 2).getD "")).map pyStrip)))).filterMap
          Prod.snd =
        data.map (fun row => (pySplitComma ((row.get? 2).getD "")).map pyStrip) := by
      rw [List.filterMap_map]
      have hcomp : (Prod.snd ∘ fun row : List String =>
          (pyStrip ((row.get? 1).getD ""),
           some ((pySplitComma ((row.get? 2).getD "")).map pyStrip))) =
          (some ∘ fun row : List String =>
            (pySplitComma ((row.get? 2).getD "")).map pyStrip) := rfl
      rw [hcomp, List.filterMap_eq_map]
    rw [hfst, hsnd]
    unfold dictFromZip
    rw [List.zip_map',
      foldl_dictSet_nodup _ [] (by simp) (by rw [List.map_map]; exact hnd),
      List.nil_append]
    rfl
  · intro row hrow
    apply lookup_of_mem_nodup
    · rw [List.map_map]
      exact hnd
    · exact List.mem_map_of_mem _ hrow

def c10WitnessData : List (List String) :=
  [["x", "o1", "a, b"], ["x", "o2", "c, d"]]

/-- C10 witness: when every data row's third column contains a comma, each
identifier is mapped to its own row's tags. -/
theorem c10_witness :
    ∃ m, create_tadirah_map (["name", "orcid", "tadirah"] :: c10WitnessData) =
        .ok m ∧
      ∀ row ∈ c10WitnessData, m.lookup (pyStrip ((row.get? 1).getD "")) =
        some ((pySplitComma ((row.get? 2).getD "")).map pyStrip) :=
  (c10_tadirah_zip_misalignment ["name", "orcid", "tadirah"] c10WitnessData
    (by decide) (by decide) (by decide)).1
